import Mathlib

/-!
# Verification of the EPUB reader core (`src/epubreader.py`)

A shallow embedding of the reader's pure core: the Paginator
(`paginate_chapter`), the progress store (`save_progress` /
`load_progress` over a sqlite-style keyed row list), the chapter
assembly of `load_epub`, and the navigation state machine
(`load_chapter`, `display_page`, `next_page`, `prev_page`).

Python text is modelled as `List Char` (Python slices strings by
characters), database integers as `Int`, and a raised exception as a
`some`-error second component: every operation returns the state after
whatever mutations happened before the raise, paired with
`Option Err`, because Python assignments made before an uncaught
exception survive it.
-/

set_option autoImplicit false

namespace EpubReader

/-- Model of Python `range(start, stop, step)` for a positive step:
`start, start + step, ...` while `< stop`.  Implemented with explicit
fuel (`stop - start` suffices because `step ≥ 1`) so that the
definition is structurally recursive and evaluates by kernel
reduction. -/
def pyRangeAux (stop step : Nat) : Nat → Nat → List Nat
  | 0, _ => []
  | fuel + 1, s =>
    if s < stop ∧ 0 < step then s :: pyRangeAux stop step fuel (s + step) else []

/-- Python `range(start, stop, step)` (positive step). -/
def pyRange (start stop step : Nat) : List Nat :=
  pyRangeAux stop step (stop - start) start

/-- `paginate_chapter` from the source:
`[text[i:i + page_size] for i in range(0, len(text), page_size)]`
with `page_size = 2000`; Python `text[i:i+k]` is `(drop i).take k`. -/
def paginate_chapter (text : List Char) : List (List Char) :=
  (pyRange 0 text.length 2000).map (fun i => ((text.drop i).take 2000))

/-- One sqlite row of the `progress` table:
`(book_path TEXT PRIMARY KEY, chapter INTEGER, page INTEGER)`. -/
abbrev Row : Type := String × Int × Int

/-- The sqlite database behind `reader.db`: the rows of `progress`
plus whether the storage layer is reachable at all (a `sqlite3`
exception on connect/execute models `PersistenceError`). -/
structure DB where
  rows : List Row
  available : Bool
deriving DecidableEq

/-- Effect of `INSERT ... ON CONFLICT(book_path) DO UPDATE` on the row
list: update the row keyed by `path` when one exists (the primary key
keeps at most one), otherwise append a fresh row. -/
def upsertRows (rows : List Row) (path : String) (c p : Int) : List Row :=
  if rows.any (fun r => r.1 == path) then
    rows.map (fun r => if r.1 == path then (path, c, p) else r)
  else
    rows ++ [(path, c, p)]

/-- `SELECT chapter, page FROM progress WHERE book_path=?` followed by
`fetchone`: the first matching row, if any.  A `None` key (Python
`self.current_book` may be `None`) matches no row, as in SQL. -/
def queryRow (rows : List Row) (path : Option String) : Option (Int × Int) :=
  match path with
  | Option.none => Option.none
  | some bp =>
    match rows.find? (fun r => r.1 == bp) with
    | some r => some (r.2.1, r.2.2)
    | Option.none => Option.none

/-- `save_progress` from the source: connect, upsert, commit.  The
Python body has no exception handler, so storage unavailability
surfaces as a raised error. -/
def save_progress (db : DB) (book_path : String) (chapter page : Int) : Except Unit DB :=
  if db.available then Except.ok ⟨upsertRows db.rows book_path chapter page, db.available⟩
  else Except.error ()

/-- `load_progress` from the source: `SELECT`, then
`return row if row else (0, 0)`.  Like `save_progress` it has no
exception handler. -/
def load_progress (db : DB) (book_path : Option String) : Except Unit (Int × Int) :=
  if db.available then
    Except.ok (match queryRow db.rows book_path with
      | some cp => cp
      | Option.none => (0, 0))
  else Except.error ()

/-- An exception propagating out of a reader operation:
`persistence` for a `sqlite3` failure in `save_progress` /
`load_progress`, `containerRead` for `epub.read_epub` failing, and
`indexError` for an out-of-range Python list subscript. -/
inductive Err
  | persistence
  | containerRead
  | indexError
deriving DecidableEq

/-- What `self.text_view` currently shows: nothing yet, the cover
image HTML, or a text page with its 1-based number and page total. -/
inductive Display
  | blank
  | cover
  | page (text : List Char) (current : Int) (total : Nat)
deriving DecidableEq

/-- One item of the epub container, as the three
`for item in book.get_items()` loops of `load_epub` see it.  A
`document` carries the plain text that
`BeautifulSoup(...).get_text(separator="\n", strip=True)` extracts
from its markup (the HTML parser is an external library, modelled by
its output). -/
inductive EpubItem
  | coverItem (content : List Char)
  | image (nm : String) (content : List Char)
  | document (text : List Char)
  | other
deriving DecidableEq

/-- Result of `epub.read_epub`: the container's items in spine /
manifest order. -/
structure ParsedBook where
  items : List EpubItem
deriving DecidableEq

/-- The reader's in-memory state: the fields set up in `__init__`
plus the database handle. -/
structure ReaderState where
  chapters : List (List Char)
  pages : List (List Char)
  current_chapter : Int
  current_page : Int
  cover_data : Option (List Char)
  current_book : Option String
  suppress_load : Bool
  displayed : Display
  db : DB
deriving DecidableEq

/-- Python truthiness of `self.cover_data`: `None` and empty bytes
are falsy. -/
def truthy (o : Option (List Char)) : Bool :=
  match o with
  | some c => ¬c.isEmpty
  | Option.none => false

/-- The sentinel text `"__COVER__"` inserted as chapter 0. -/
def coverSentinel : List Char := "__COVER__".toList

/-- Python `"cover" in name.lower()`. -/
def containsSub (pat : List Char) : List Char → Bool
  | [] => pat.isEmpty
  | c :: rest => pat.isPrefixOf (c :: rest) || containsSub pat rest

def lowerHasCover (nm : String) : Bool :=
  containsSub "cover".toList nm.toLower.toList

/-- First loop of the cover extraction: the first item of type
`ITEM_COVER`. -/
def findCoverItem : List EpubItem → Option (List Char)
  | [] => Option.none
  | EpubItem.coverItem c :: _ => some c
  | EpubItem.image _ _ :: rest => findCoverItem rest
  | EpubItem.document _ :: rest => findCoverItem rest
  | EpubItem.other :: rest => findCoverItem rest

/-- Second loop: the first `ITEM_IMAGE` whose name contains
`"cover"` case-insensitively. -/
def findCoverImage : List EpubItem → Option (List Char)
  | [] => Option.none
  | EpubItem.image nm c :: rest =>
    if lowerHasCover nm then some c else findCoverImage rest
  | EpubItem.coverItem _ :: rest => findCoverImage rest
  | EpubItem.document _ :: rest => findCoverImage rest
  | EpubItem.other :: rest => findCoverImage rest

/-- The chapter-extraction loop: for each `ITEM_DOCUMENT`, keep its
extracted text iff it is non-empty (`if text:`). -/
def collectChapters : List EpubItem → List (List Char)
  | [] => []
  | EpubItem.document t :: rest =>
    if t ≠ [] then t :: collectChapters rest else collectChapters rest
  | EpubItem.coverItem _ :: rest => collectChapters rest
  | EpubItem.image _ _ :: rest => collectChapters rest
  | EpubItem.other :: rest => collectChapters rest

/-- The value of `self.cover_data` after both cover loops: the
`ITEM_COVER` content when truthy, else the first matching image,
else whatever the first loop left (possibly falsy). -/
def resolvedCover (items : List EpubItem) : Option (List Char) :=
  let cd0 := findCoverItem items
  if truthy cd0 then cd0
  else
    match findCoverImage items with
    | some c => some c
    | Option.none => cd0

/-- The value of `self.chapters` after `load_epub`'s extraction: the
non-empty texts, with `"__COVER__"` inserted at index 0 when the
resolved cover is truthy. -/
def assembledChapters (items : List EpubItem) : List (List Char) :=
  if truthy (resolvedCover items) then coverSentinel :: collectChapters items
  else collectChapters items

/-- `os.path.abspath`; path canonicalisation is OS state the core
never inspects, so it is modelled as the identity. -/
def os_path_abspath (p : String) : String := p

/-- Python list subscription `l[i]`: plain for `0 ≤ i < len`,
wrap-around for `-len ≤ i < 0`, `IndexError` otherwise. -/
def pyGet {α : Type} (l : List α) (i : Int) : Option α :=
  if 0 ≤ i ∧ i < (l.length : Int) then l.get? i.toNat
  else if 0 ≤ i + (l.length : Int) ∧ i < 0 then l.get? (i + (l.length : Int)).toNat
  else Option.none

/-- `display_page` from the source: if there are pages, render
`pages[current_page]` plus the `Page N / total` footer, then persist
`(current_chapter, current_page)` when a book is open. -/
def display_page (st : ReaderState) : ReaderState × Option Err :=
  if st.pages ≠ [] then
    match pyGet st.pages st.current_page with
    | Option.none => (st, some Err.indexError)
    | some text =>
      let st1 := { st with
        displayed := Display.page text (st.current_page + 1) st.pages.length }
      match st1.current_book with
      | Option.none => (st1, Option.none)
      | some bp =>
        match save_progress st1.db bp st1.current_chapter st1.current_page with
        | Except.ok db2 => ({ st1 with db := db2 }, Option.none)
        | Except.error _ => (st1, some Err.persistence)
  else (st, Option.none)

/-- The tail of `load_chapter` after the guards and the
`save_progress` call: the `__COVER__` branch, else paginate the
chapter text, re-read the stored page, clamp, and display. -/
def load_chapter_body (st : ReaderState) (index : Int) : ReaderState × Option Err :=
  if st.chapters.getD index.toNat [] = coverSentinel ∧ truthy st.cover_data then
    ({ st with
        displayed := Display.cover,
        pages := [],
        current_chapter := index,
        current_page := 0 }, Option.none)
  else
    let st1 := { st with
      current_chapter := index,
      pages := paginate_chapter (st.chapters.getD index.toNat []) }
    match load_progress st1.db st1.current_book with
    | Except.error _ => (st1, some Err.persistence)
    | Except.ok sp =>
      let st2 := { st1 with current_page := min sp.2 ((st1.pages.length : Int) - 1) }
      display_page st2

/-- `load_chapter` from the source: no-op under `suppress_load` or
for an out-of-range index; otherwise persist `(index, 0)` when a book
is open, then run the body. -/
def load_chapter (st : ReaderState) (index : Int) : ReaderState × Option Err :=
  if st.suppress_load then (st, Option.none)
  else if index < 0 ∨ (st.chapters.length : Int) ≤ index then (st, Option.none)
  else
    match st.current_book with
    | some bp =>
      match save_progress st.db bp index 0 with
      | Except.error _ => (st, some Err.persistence)
      | Except.ok db1 => load_chapter_body { st with db := db1 } index
    | Option.none => load_chapter_body st index

/-- `next_page` from the source. -/
def next_page (st : ReaderState) : ReaderState × Option Err :=
  if st.pages ≠ [] ∧ st.current_page < (st.pages.length : Int) - 1 then
    display_page { st with current_page := st.current_page + 1 }
  else (st, Option.none)

/-- `prev_page` from the source. -/
def prev_page (st : ReaderState) : ReaderState × Option Err :=
  if st.pages ≠ [] ∧ 0 < st.current_page then
    display_page { st with current_page := st.current_page - 1 }
  else (st, Option.none)

/-- `load_epub` from the source.  `readResult` is the outcome of the
external `epub.read_epub(path)` call; note `self.current_book` is
assigned before it can fail, and `self.pages` is never cleared. -/
def load_epub (st : ReaderState) (path : String) (readResult : Except Unit ParsedBook) :
    ReaderState × Option Err :=
  let st0 := { st with current_book := some (os_path_abspath path) }
  match readResult with
  | Except.error _ => (st0, some Err.containerRead)
  | Except.ok book =>
    let st1 := { st0 with chapters := [], cover_data := Option.none }
    let st2 := { st1 with
      cover_data := resolvedCover book.items,
      chapters := assembledChapters book.items }
    match load_progress st2.db st2.current_book with
    | Except.error _ => (st2, some Err.persistence)
    | Except.ok cp =>
      let st3 := { st2 with current_chapter := cp.1, current_page := cp.2 }
      match load_chapter st3 cp.1 with
      | (st4, some e) => (st4, some e)
      | (st4, Option.none) =>
        let st5 := { st4 with current_page := min cp.2 ((st4.pages.length : Int) - 1) }
        display_page st5

/-- The state `__init__` sets up, parameterised by the database the
connection reaches. -/
def initState (db : DB) : ReaderState :=
  { chapters := [], pages := [], current_chapter := 0, current_page := 0,
    cover_data := Option.none, current_book := Option.none,
    suppress_load := false, displayed := Display.blank, db := db }

/-- Projection of the container's `ITEM_DOCUMENT` extracted texts in
spine order, before the `if text:` filtering; used to state how
`collectChapters` indexes the surviving sections. -/
def docTexts : List EpubItem → List (List Char)
  | [] => []
  | EpubItem.document t :: rest => t :: docTexts rest
  | EpubItem.coverItem _ :: rest => docTexts rest
  | EpubItem.image _ _ :: rest => docTexts rest
  | EpubItem.other :: rest => docTexts rest

/-- Fixture for C1: a loaded two-page chapter with the storage layer
unreachable. -/
def c1State : ReaderState :=
  { initState ⟨[], false⟩ with
    chapters := ["ab".toList],
    pages := ["a".toList, "b".toList],
    current_book := some "b" }

/-- Fixture for C2: a one-chapter book and a stale progress record
pointing at chapter 5. -/
def c2Book : ParsedBook := ⟨[EpubItem.document "hello".toList]⟩

def c2State : ReaderState := initState ⟨[("b", 5, 0)], true⟩

/-- Fixture for the C2 witness: the same book with a stored page
index past the only page. -/
def c2wState : ReaderState := initState ⟨[("b", 0, 4)], true⟩

/-- Fixture for C3: a book with an explicit cover and one text
chapter, with stored progress on the cover. -/
def c3Book : ParsedBook :=
  ⟨[EpubItem.coverItem "IMG".toList, EpubItem.document "hello".toList]⟩

def c3State : ReaderState := initState ⟨[("b", 0, 0)], true⟩

/-- Fixture for C4: a book whose two sections extract to empty text,
with no cover. -/
def c4Book : ParsedBook := ⟨[EpubItem.document [], EpubItem.document []]⟩

def c4State : ReaderState := initState ⟨[], true⟩

/-- Fixture for C8: two empty sections between two non-empty ones. -/
def c8Items : List EpubItem :=
  [EpubItem.document "a".toList, EpubItem.document [],
    EpubItem.document [], EpubItem.document "b".toList]

theorem pyRangeAux_fuel_irrel (stop step : Nat) :
    ∀ fuel fuel' s, stop - s ≤ fuel → stop - s ≤ fuel' →
      pyRangeAux stop step fuel s = pyRangeAux stop step fuel' s := by
  intro fuel
  induction fuel with
  | zero =>
    intro fuel' s h _
    have hs : ¬(s < stop ∧ 0 < step) := fun hc => by omega
    cases fuel' with
    | zero => rfl
    | succ m => rw [pyRangeAux, pyRangeAux, if_neg hs]
  | succ n ih =>
    intro fuel' s h h'
    by_cases hc : s < stop ∧ 0 < step
    · have hpos : 0 < stop - s := by omega
      cases fuel' with
      | zero => omega
      | succ m =>
        rw [pyRangeAux, pyRangeAux, if_pos hc, if_pos hc]
        have : pyRangeAux stop step n (s + step) = pyRangeAux stop step m (s + step) :=
          ih m (s + step) (by omega) (by omega)
        rw [this]
    · cases fuel' with
      | zero => rw [pyRangeAux, pyRangeAux, if_neg hc]
      | succ m => rw [pyRangeAux, pyRangeAux, if_neg hc, if_neg hc]

/-- The defining equation of `pyRange`. -/
theorem pyRange_eq (start stop step : Nat) :
    pyRange start stop step =
      if start < stop ∧ 0 < step then start :: pyRange (start + step) stop step else [] := by
  unfold pyRange
  by_cases hc : start < stop ∧ 0 < step
  · have hpos : 0 < stop - start := by omega
    obtain ⟨m, hm⟩ : ∃ m, stop - start = m + 1 := ⟨stop - start - 1, by omega⟩
    rw [hm, pyRangeAux, if_pos hc, if_pos hc]
    congr 1
    exact pyRangeAux_fuel_irrel stop step m (stop - (start + step)) (start + step)
      (by omega) (by omega)
  · rw [if_neg hc]
    cases heq : stop - start with
    | zero => rfl
    | succ m => rw [pyRangeAux, if_neg hc]

/-- `pyRange` shifted by a constant offset. -/
theorem pyRange_shift (step d : Nat) :
    ∀ n start stop, stop - start ≤ n →
      pyRange (start + d) (stop + d) step = (pyRange start stop step).map (· + d) := by
  intro n
  induction n with
  | zero =>
    intro start stop h
    rw [pyRange_eq (start + d) (stop + d) step, pyRange_eq start stop step,
      if_neg (by omega), if_neg (by omega)]
    rfl
  | succ n ih =>
    intro start stop h
    by_cases hc : start < stop ∧ 0 < step
    · rw [pyRange_eq (start + d) (stop + d) step, pyRange_eq start stop step,
        if_pos (by omega : start + d < stop + d ∧ 0 < step), if_pos hc, List.map_cons]
      rw [show start + d + step = start + step + d by omega, ih (start + step) stop (by omega)]
    · rw [pyRange_eq (start + d) (stop + d) step, pyRange_eq start stop step,
        if_neg (by omega), if_neg hc]
      rfl

theorem paginate_nil : paginate_chapter [] = [] := rfl

/-- The Paginator's comprehension over `range(0, len, 2000)` unrolls one
page at a time: first `text[0:2000]`, then the pages of the rest. -/
theorem paginate_cons (t : List Char) (h : t ≠ []) :
    paginate_chapter t = t.take 2000 :: paginate_chapter (t.drop 2000) := by
  have hlen : 0 < t.length := List.length_pos.mpr h
  have hrange : pyRange (0 + 2000) t.length 2000 =
      (pyRange 0 (t.length - 2000) 2000).map (· + 2000) := by
    by_cases hl : 2000 ≤ t.length
    · have hs := pyRange_shift 2000 2000 (t.length - 2000) 0 (t.length - 2000) (by omega)
      rw [show t.length - 2000 + 2000 = t.length by omega] at hs
      exact hs
    · rw [pyRange_eq (0 + 2000) t.length 2000, if_neg (by omega),
        show t.length - 2000 = 0 by omega, pyRange_eq 0 0 2000, if_neg (by omega),
        List.map_nil]
  unfold paginate_chapter
  rw [pyRange_eq 0 t.length 2000, if_pos ⟨hlen, by omega⟩, List.map_cons, List.drop_zero,
    hrange, List.length_drop, List.map_map]
  refine congrArg (fun l => t.take 2000 :: l) ?_
  apply List.map_congr_left
  intro i _
  simp only [Function.comp_apply]
  rw [List.drop_drop]
  try rw [show 2000 + i = i + 2000 by omega]

/-- C5 backbone: page concatenation reproduces the chapter text. -/
theorem paginate_join_aux :
    ∀ n (t : List Char), t.length ≤ n → (paginate_chapter t).flatten = t := by
  intro n
  induction n with
  | zero =>
    intro t ht
    have : t = [] := List.length_eq_zero.mp (by omega)
    rw [this, paginate_nil, List.flatten_nil]
  | succ n ih =>
    intro t ht
    by_cases h : t = []
    · rw [h, paginate_nil, List.flatten_nil]
    · rw [paginate_cons t h, List.flatten_cons,
        ih (t.drop 2000) (by rw [List.length_drop]; omega),
        List.take_append_drop]

/-- Number of pages: `⌈len/2000⌉` expressed as `(len + 1999) / 2000`. -/
theorem paginate_length_aux :
    ∀ n (t : List Char), t.length ≤ n →
      (paginate_chapter t).length = (t.length + 1999) / 2000 := by
  intro n
  induction n with
  | zero =>
    intro t ht
    have : t = [] := List.length_eq_zero.mp (by omega)
    rw [this, paginate_nil]
    rfl
  | succ n ih =>
    intro t ht
    by_cases h : t = []
    · rw [h, paginate_nil]
      rfl
    · have hlen : 0 < t.length := List.length_pos.mpr h
      rw [paginate_cons t h, List.length_cons,
        ih (t.drop 2000) (by rw [List.length_drop]; omega), List.length_drop]
      omega

theorem paginate_eq_nil_iff (t : List Char) : paginate_chapter t = [] ↔ t = [] := by
  constructor
  · intro h
    by_contra hne
    rw [paginate_cons t hne] at h
    exact List.cons_ne_nil _ _ h
  · intro h
    rw [h, paginate_nil]

/-- Every page except possibly the last holds exactly 2000 characters. -/
theorem paginate_full_pages_aux :
    ∀ n (t : List Char), t.length ≤ n →
      ∀ i, i + 1 < (paginate_chapter t).length →
        ((paginate_chapter t).getD i []).length = 2000 := by
  intro n
  induction n with
  | zero =>
    intro t ht i hi
    have : t = [] := List.length_eq_zero.mp (by omega)
    rw [this, paginate_nil] at hi
    simp at hi
  | succ n ih =>
    intro t ht i hi
    by_cases h : t = []
    · rw [h, paginate_nil] at hi
      simp at hi
    · rw [paginate_cons t h] at hi ⊢
      cases i with
      | zero =>
        have hrest : paginate_chapter (t.drop 2000) ≠ [] := by
          intro hnil
          rw [List.length_cons, hnil] at hi
          simp at hi
        have hdrop : t.drop 2000 ≠ [] := (paginate_eq_nil_iff _).not.mp hrest
        have hbig : 2000 < t.length := by
          by_contra hle
          exact hdrop (List.drop_eq_nil_of_le (by omega))
        simp [List.length_take]
        omega
      | succ j =>
        simp only [List.getD_cons_succ]
        exact ih (t.drop 2000) (by rw [List.length_drop]; omega) j
          (by rw [List.length_cons] at hi; omega)



theorem bool_eq_false {b : Bool} (h : ¬b = true) : b = false := by
  cases b with
  | false => rfl
  | true => exact absurd rfl h

theorem find?_cons_pos {α : Type} (q : α → Bool) (a : α) (l : List α) (h : q a = true) :
    (a :: l).find? q = some a := by
  show (match q a with
    | true => some a
    | false => l.find? q) = some a
  rw [h]

theorem find?_cons_neg {α : Type} (q : α → Bool) (a : α) (l : List α) (h : q a = false) :
    (a :: l).find? q = l.find? q := by
  show (match q a with
    | true => some a
    | false => l.find? q) = l.find? q
  rw [h]

theorem find?_upsert_hit (path : String) (c p : Int) :
    ∀ rows : List Row, rows.any (fun r => r.1 == path) = true →
      (rows.map (fun r => if r.1 == path then (path, c, p) else r)).find?
        (fun r => r.1 == path) = some (path, c, p) := by
  intro rows
  induction rows with
  | nil => intro hany; simp at hany
  | cons r rest ih =>
    intro hany
    by_cases hr : (r.1 == path) = true
    · rw [List.map_cons, if_pos hr]
      exact find?_cons_pos (fun r => r.1 == path) (path, c, p) _ (by simp)
    · have hrest : rest.any (fun r => r.1 == path) = true := by
        rw [List.any_cons] at hany
        simpa [hr] using hany
      rw [List.map_cons, if_neg hr, find?_cons_neg (fun r => r.1 == path) r _ (bool_eq_false hr)]
      exact ih hrest

theorem find?_upsert_miss (path : String) (c p : Int) :
    ∀ rows : List Row, rows.any (fun r => r.1 == path) = false →
      (rows ++ [(path, c, p)]).find? (fun r => r.1 == path) = some (path, c, p) := by
  intro rows
  induction rows with
  | nil =>
    intro _
    exact find?_cons_pos (fun r => r.1 == path) (path, c, p) _ (by simp)
  | cons r rest ih =>
    intro hany
    rw [List.any_cons, Bool.or_eq_false_iff] at hany
    rw [List.cons_append, find?_cons_neg (fun r => r.1 == path) r _ hany.1]
    exact ih hany.2

/-- Reading back the key just upserted finds exactly the written pair. -/
theorem queryRow_upsert_self (rows : List Row) (path : String) (c p : Int) :
    queryRow (upsertRows rows path c p) (some path) = some (c, p) := by
  unfold upsertRows
  by_cases hany : rows.any (fun r => r.1 == path) = true
  · rw [if_pos hany]
    show (match List.find? (fun r => r.1 == path)
        (rows.map (fun r => if r.1 == path then (path, c, p) else r)) with
      | some r => some (r.2.1, r.2.2)
      | Option.none => Option.none) = some (c, p)
    rw [find?_upsert_hit path c p rows hany]
  · rw [if_neg hany]
    show (match List.find? (fun r => r.1 == path) (rows ++ [(path, c, p)]) with
      | some r => some (r.2.1, r.2.2)
      | Option.none => Option.none) = some (c, p)
    rw [find?_upsert_miss path c p rows (bool_eq_false hany)]

/-- Upserting `path` leaves the row found for any other key unchanged. -/
theorem queryRow_upsert_other (rows : List Row) (path path' : String) (c p : Int)
    (hne : path' ≠ path) :
    queryRow (upsertRows rows path c p) (some path') = queryRow rows (some path') := by
  have hfind : ∀ rows2 : List Row,
      (rows2.map (fun r => if r.1 == path then (path, c, p) else r)).find?
        (fun r => r.1 == path') = rows2.find? (fun r => r.1 == path') := by
    intro rows2
    induction rows2 with
    | nil => rfl
    | cons r rest ih =>
      by_cases hr : (r.1 == path) = true
      · have hkey : r.1 = path := beq_iff_eq.mp hr
        have hr' : (r.1 == path') = false := by
          simp only [beq_eq_false_iff_ne, ne_eq]
          rw [hkey]
          exact fun hx => hne hx.symm
        have hhead : ((path, c, p).1 == path') = false := by
          simp only [beq_eq_false_iff_ne, ne_eq]
          exact fun hx => hne hx.symm
        rw [List.map_cons, if_pos hr,
          find?_cons_neg (fun r => r.1 == path') (path, c, p) _ hhead,
          find?_cons_neg (fun r => r.1 == path') r _ hr']
        exact ih
      · rw [List.map_cons, if_neg hr]
        by_cases hr' : (r.1 == path') = true
        · rw [find?_cons_pos (fun r => r.1 == path') r _ hr']
          rw [find?_cons_pos (fun r => r.1 == path') r _ hr']
        · rw [find?_cons_neg (fun r => r.1 == path') r _ (bool_eq_false hr')]
          rw [find?_cons_neg (fun r => r.1 == path') r _ (bool_eq_false hr')]
          exact ih
  have happ : ∀ rows2 : List Row, (rows2 ++ [(path, c, p)]).find? (fun r => r.1 == path') =
      rows2.find? (fun r => r.1 == path') := by
    intro rows2
    induction rows2 with
    | nil =>
      rw [List.nil_append, find?_cons_neg (fun r => r.1 == path') (path, c, p) _ (by
        simp only [beq_eq_false_iff_ne, ne_eq]
        exact fun hx => hne hx.symm : ((path, c, p).1 == path') = false)]
    | cons r rest ih =>
      by_cases hr' : (r.1 == path') = true
      · rw [List.cons_append, find?_cons_pos (fun r => r.1 == path') r _ hr']
        rw [find?_cons_pos (fun r => r.1 == path') r _ hr']
      · rw [List.cons_append, find?_cons_neg (fun r => r.1 == path') r _ (bool_eq_false hr')]
        rw [find?_cons_neg (fun r => r.1 == path') r _ (bool_eq_false hr')]
        exact ih
  unfold upsertRows
  by_cases hany : rows.any (fun r => r.1 == path) = true
  · rw [if_pos hany]
    show (match List.find? (fun r => r.1 == path')
        (rows.map (fun r => if r.1 == path then (path, c, p) else r)) with
      | some r => some (r.2.1, r.2.2)
      | Option.none => Option.none) = queryRow rows (some path')
    rw [hfind rows]
    rfl
  · rw [if_neg hany]
    show (match List.find? (fun r => r.1 == path') (rows ++ [(path, c, p)]) with
      | some r => some (r.2.1, r.2.2)
      | Option.none => Option.none) = queryRow rows (some path')
    rw [happ rows]
    rfl

/-- After the upsert there is exactly one row for the written key,
provided the primary-key invariant (no duplicate keys) held before. -/
theorem upsertRows_unique (rows : List Row) (path : String) (c p : Int)
    (hnd : (rows.map Prod.fst).Nodup) :
    ((upsertRows rows path c p).filter (fun r => r.1 == path)).length = 1 := by
  unfold upsertRows
  by_cases hany : rows.any (fun r => r.1 == path)
  · rw [if_pos hany]
    induction rows with
    | nil => simp at hany
    | cons r rest ih =>
      rw [List.map_cons, List.nodup_cons] at hnd
      by_cases hr : r.1 == path
      · have hkey : r.1 = path := beq_iff_eq.mp hr
        have hnone : ∀ x ∈ rest, ¬(x.1 == path) := by
          intro x hx hxeq
          have hx1 : x.1 ∈ rest.map Prod.fst := List.mem_map_of_mem Prod.fst hx
          rw [beq_iff_eq.mp hxeq, ← hkey] at hx1
          exact hnd.1 hx1
        have hmap : rest.map (fun r => if r.1 == path then (path, c, p) else r) = rest := by
          have h1 : rest.map (fun r => if r.1 == path then (path, c, p) else r) =
              rest.map id := by
            apply List.map_congr_left
            intro x hx
            rw [if_neg (hnone x hx)]
            rfl
          rw [h1, List.map_id]
        simp only [List.map_cons, if_pos hr, List.filter_cons, hmap]
        rw [if_pos (by simp)]
        have : rest.filter (fun r => r.1 == path) = [] := by
          rw [List.filter_eq_nil_iff]
          exact hnone
        rw [this]
        rfl
      · have hrest : rest.any (fun r => r.1 == path) := by
          simp [List.any_cons, hr] at hany
          simpa using hany
        simp only [List.map_cons, if_neg hr, List.filter_cons]
        exact ih hnd.2 hrest
  · rw [if_neg hany]
    have hnone : ∀ x ∈ rows, ¬(x.1 == path) := by
      intro x hx hxeq
      exact hany (List.any_eq_true.mpr ⟨x, hx, hxeq⟩)
    rw [List.filter_append]
    have h1 : rows.filter (fun r => r.1 == path) = [] := by
      rw [List.filter_eq_nil_iff]
      exact hnone
    rw [h1]
    simp

/-- Upserting the same triple twice gives the same rows as once. -/
theorem upsertRows_idem (rows : List Row) (path : String) (c p : Int) :
    upsertRows (upsertRows rows path c p) path c p = upsertRows rows path c p := by
  unfold upsertRows
  by_cases hany : rows.any (fun r => r.1 == path)
  · rw [if_pos hany]
    have hany2 : (rows.map (fun r => if r.1 == path then (path, c, p) else r)).any
        (fun r => r.1 == path) := by
      rw [List.any_map]
      rw [List.any_eq_true] at hany ⊢
      obtain ⟨x, hx, hxeq⟩ := hany
      exact ⟨x, hx, by simp [Function.comp, hxeq]⟩
    rw [if_pos hany2, List.map_map]
    apply List.map_congr_left
    intro x _
    simp only [Function.comp_apply]
    by_cases hx : x.1 == path
    · rw [if_pos hx]
      rw [if_pos (by simp)]
    · rw [if_neg hx, if_neg hx]
  · rw [if_neg hany]
    have hany2 : ((rows ++ [(path, c, p)]).any (fun r => r.1 == path)) := by
      rw [List.any_append]
      simp
    rw [if_pos hany2, List.map_append]
    have h1 : rows.map (fun r => if r.1 == path then (path, c, p) else r) = rows := by
      have h2 : rows.map (fun r => if r.1 == path then (path, c, p) else r) =
          rows.map id := by
        apply List.map_congr_left
        intro x hx
        rw [if_neg (fun hxeq => hany (List.any_eq_true.mpr ⟨x, hx, hxeq⟩))]
        rfl
      rw [h2, List.map_id]
    rw [h1]
    simp

theorem getLastD_irrel {α : Type} (l : List α) (h : l ≠ []) (d d' : α) :
    l.getLastD d = l.getLastD d' := by
  cases l with
  | nil => exact absurd rfl h
  | cons a l => rfl

/-- The last page holds between 1 and 2000 characters. -/
theorem paginate_last_aux :
    ∀ n (t : List Char), t.length ≤ n → t ≠ [] →
      1 ≤ ((paginate_chapter t).getLastD []).length ∧
        ((paginate_chapter t).getLastD []).length ≤ 2000 := by
  intro n
  induction n with
  | zero =>
    intro t ht hne
    exact absurd (List.length_eq_zero.mp (by omega)) hne
  | succ n ih =>
    intro t ht hne
    have hlen : 0 < t.length := List.length_pos.mpr hne
    rw [paginate_cons t hne]
    by_cases hrest : t.drop 2000 = []
    · rw [hrest, paginate_nil]
      simp [List.length_take]
      have : ¬(2000 < t.length) := by
        intro hgt
        have : (t.drop 2000).length = t.length - 2000 := List.length_drop 2000 t
        rw [hrest] at this
        simp at this
        omega
      omega
    · have hpne : paginate_chapter (t.drop 2000) ≠ [] :=
        (paginate_eq_nil_iff _).not.mpr hrest
      have heq : (t.take 2000 :: paginate_chapter (t.drop 2000)).getLastD [] =
          (paginate_chapter (t.drop 2000)).getLastD [] := by
        rw [List.getLastD_cons]
        exact getLastD_irrel _ hpne _ _
      rw [heq]
      exact ih (t.drop 2000) (by rw [List.length_drop]; omega) hrest


theorem paginate_replicate_4001 :
    (paginate_chapter (List.replicate 4001 'a')).map List.length = [2000, 2000, 1] := by
  have hne : ∀ n : Nat, 0 < n → (List.replicate n 'a' : List Char) ≠ [] := by
    intro n hn
    exact List.length_pos.mp (by rw [List.length_replicate]; omega)
  rw [paginate_cons _ (hne 4001 (by norm_num)), List.take_replicate, List.drop_replicate]
  rw [show min 2000 4001 = 2000 from by norm_num, show 4001 - 2000 = 2001 from by norm_num]
  rw [paginate_cons _ (hne 2001 (by norm_num)), List.take_replicate, List.drop_replicate]
  rw [show min 2000 2001 = 2000 from by norm_num, show 2001 - 2000 = 1 from by norm_num]
  rw [paginate_cons _ (hne 1 (by norm_num)), List.take_replicate, List.drop_replicate]
  rw [show min 2000 1 = 1 from by norm_num, show (1 - 2000 : Nat) = 0 from by norm_num]
  rw [show (List.replicate 0 'a' : List Char) = [] from rfl, paginate_nil]
  rw [List.map_cons, List.map_cons, List.map_cons, List.map_nil,
    List.length_replicate, List.length_replicate]

/-- C5: for every chapter text `T`, concatenating the pages of
`paginate(T)` in page order reproduces `T` exactly — no characters
dropped, none duplicated, no overlap. -/
theorem C5_paginate_roundtrip (t : List Char) : (paginate_chapter t).flatten = t :=
  paginate_join_aux t.length t le_rfl

/-- C6: with page size 2000 the page count is `⌈len(T)/2000⌉` (0 for
empty `T`), every page but the last holds exactly 2000 characters,
the last between 1 and 2000; a 4001-character text gives pages of
sizes 2000, 2000, 1. -/
theorem C6_page_count_and_sizes (t : List Char) :
    (paginate_chapter t).length = (t.length + 1999) / 2000 ∧
    (t = [] → paginate_chapter t = []) ∧
    (∀ i : Nat, i + 1 < (paginate_chapter t).length →
      ((paginate_chapter t).getD i []).length = 2000) ∧
    (t ≠ [] → 1 ≤ ((paginate_chapter t).getLastD []).length ∧
      ((paginate_chapter t).getLastD []).length ≤ 2000) ∧
    (paginate_chapter (List.replicate 4001 'a')).map List.length = [2000, 2000, 1] := by
  refine ⟨paginate_length_aux t.length t le_rfl, ?_,
    paginate_full_pages_aux t.length t le_rfl, paginate_last_aux t.length t le_rfl,
    paginate_replicate_4001⟩
  intro h
  rw [h, paginate_nil]

/-- Witness for C6 at the 4001-character scenario text. -/
theorem C6_witness :
    (paginate_chapter (List.replicate 4001 'a')).length = 3 ∧
    ((paginate_chapter (List.replicate 4001 'a')).getD 0 []).length = 2000 ∧
    ((paginate_chapter (List.replicate 4001 'a')).getD 1 []).length = 2000 ∧
    1 ≤ ((paginate_chapter (List.replicate 4001 'a')).getLastD []).length ∧
    ((paginate_chapter (List.replicate 4001 'a')).getLastD []).length ≤ 2000 := by
  have h := C6_page_count_and_sizes (List.replicate 4001 'a')
  have hlen : (paginate_chapter (List.replicate 4001 'a')).length = 3 := by
    rw [h.1, List.length_replicate]
  refine ⟨hlen, h.2.2.1 0 (by rw [hlen]; omega), h.2.2.1 1 (by rw [hlen]; omega), ?_, ?_⟩
  · exact (h.2.2.2.1 (List.length_pos.mp (by rw [List.length_replicate]; omega))).1
  · exact (h.2.2.2.1 (List.length_pos.mp (by rw [List.length_replicate]; omega))).2

/-- C7: invalid navigation is a silent no-op: an out-of-range
`gotoChapter` leaves the whole session (database included) unchanged
and raises nothing, `nextPage` on the last page and `prevPage` on the
first page likewise. -/
theorem C7_invalid_navigation_noop (st : ReaderState) (i : Int) :
    ((i < 0 ∨ (st.chapters.length : Int) ≤ i) → load_chapter st i = (st, Option.none)) ∧
    (st.current_page = (st.pages.length : Int) - 1 → next_page st = (st, Option.none)) ∧
    (st.current_page = 0 → prev_page st = (st, Option.none)) := by
  refine ⟨?_, ?_, ?_⟩
  · intro h
    unfold load_chapter
    by_cases hs : st.suppress_load
    · rw [if_pos hs]
    · rw [if_neg hs, if_pos h]
  · intro h
    unfold next_page
    rw [if_neg (fun hc => by omega)]
  · intro h
    unfold prev_page
    rw [if_neg (fun hc => by omega)]

/-- The fixture for C7: one loaded one-page chapter, sitting on its
only page. -/
def c7State : ReaderState :=
  { initState ⟨[], true⟩ with
    chapters := ["ab".toList],
    pages := ["ab".toList],
    current_book := some "b" }

/-- Witness for C7: chapter request 7 on a one-chapter book, and
page moves at both boundaries. -/
theorem C7_witness :
    load_chapter c7State 7 = (c7State, Option.none) ∧
    next_page c7State = (c7State, Option.none) ∧
    prev_page c7State = (c7State, Option.none) :=
  ⟨(C7_invalid_navigation_noop c7State 7).1 (by decide),
    (C7_invalid_navigation_noop c7State 7).2.1 (by decide),
    (C7_invalid_navigation_noop c7State 7).2.2 (by decide)⟩

/-- C9: on an available store, `put(path, c, p)` then `get(path)`
returns `(c, p)`; the upsert leaves exactly one record for the path
(given the primary-key invariant), is idempotent, and the last write
wins. -/
theorem C9_put_get_roundtrip (rows : List Row) (path : String) (c p : Int)
    (hnd : (rows.map Prod.fst).Nodup) :
    save_progress ⟨rows, true⟩ path c p = Except.ok ⟨upsertRows rows path c p, true⟩ ∧
    load_progress ⟨upsertRows rows path c p, true⟩ (some path) = Except.ok (c, p) ∧
    ((upsertRows rows path c p).filter (fun r => r.1 == path)).length = 1 ∧
    upsertRows (upsertRows rows path c p) path c p = upsertRows rows path c p ∧
    (∀ c2 p2 : Int, load_progress ⟨upsertRows (upsertRows rows path c p) path c2 p2, true⟩
      (some path) = Except.ok (c2, p2)) := by
  refine ⟨rfl, ?_, upsertRows_unique rows path c p hnd, upsertRows_idem rows path c p, ?_⟩
  · show Except.ok (match queryRow (upsertRows rows path c p) (some path) with
      | some cp => cp
      | Option.none => (0, 0)) = Except.ok (c, p)
    rw [queryRow_upsert_self]
  · intro c2 p2
    show Except.ok (match queryRow (upsertRows (upsertRows rows path c p) path c2 p2)
        (some path) with
      | some cp => cp
      | Option.none => (0, 0)) = Except.ok (c2, p2)
    rw [queryRow_upsert_self]

/-- Witness for C9 on a store holding records for two other books. -/
theorem C9_witness :
    load_progress ⟨upsertRows [("a", 1, 2), ("b", 9, 9)] "b" 3 4, true⟩ (some "b") =
      Except.ok (3, 4) :=
  (C9_put_get_roundtrip [("a", 1, 2), ("b", 9, 9)] "b" 3 4 (by decide)).2.1

/-- C10: `put(path, c, p)` does not disturb what `get` returns for
any other path, present in the store or not. -/
theorem C10_put_frame (rows : List Row) (path path2 : String) (c p : Int)
    (hne : path2 ≠ path) :
    load_progress ⟨upsertRows rows path c p, true⟩ (some path2) =
      load_progress ⟨rows, true⟩ (some path2) := by
  simp only [load_progress]
  rw [queryRow_upsert_other rows path path2 c p hne]

/-- Witness for C10: a present and an absent foreign key. -/
theorem C10_witness :
    load_progress ⟨upsertRows [("a", 1, 2)] "b" 3 4, true⟩ (some "a") =
      load_progress ⟨[("a", 1, 2)], true⟩ (some "a") ∧
    load_progress ⟨upsertRows [("a", 1, 2)] "b" 3 4, true⟩ (some "zz") =
      load_progress ⟨[("a", 1, 2)], true⟩ (some "zz") :=
  ⟨C10_put_frame [("a", 1, 2)] "b" "a" 3 4 (by decide),
    C10_put_frame [("a", 1, 2)] "b" "zz" 3 4 (by decide)⟩



/-- The chapter loop keeps exactly the non-empty extracted texts, in
spine order. -/
theorem collectChapters_eq_filter :
    ∀ items : List EpubItem,
      collectChapters items = (docTexts items).filter (fun t => !t.isEmpty) := by
  intro items
  induction items with
  | nil => rfl
  | cons it rest ih =>
    cases it with
    | coverItem c => exact ih
    | image nm c => exact ih
    | document t =>
      by_cases ht : t = []
      · rw [ht]
        show collectChapters (EpubItem.document [] :: rest) =
          List.filter (fun t => !t.isEmpty) ([] :: docTexts rest)
        rw [List.filter_cons]
        unfold collectChapters
        rw [if_neg (by simp), if_neg (by simp)]
        exact ih
      · show collectChapters (EpubItem.document t :: rest) =
          List.filter (fun t => !t.isEmpty) (t :: docTexts rest)
        rw [List.filter_cons]
        unfold collectChapters
        rw [if_pos ht, if_pos (by simpa using ht)]
        rw [ih]
    | other => exact ih

/-- C8: empty-text sections are dropped without reserving an index:
the surviving chapters are exactly the non-empty extracted texts,
indexed contiguously `0..N-1` in spine order, shifted by one when a
cover chapter occupies index 0; no gaps remain where sections were
dropped. -/
theorem C8_dense_indexing (items : List EpubItem) :
    collectChapters items = (docTexts items).filter (fun t => !t.isEmpty) ∧
    (assembledChapters items).length =
      (if truthy (resolvedCover items) then 1 else 0) +
        ((docTexts items).filter (fun t => !t.isEmpty)).length ∧
    (∀ i : Nat, i < ((docTexts items).filter (fun t => !t.isEmpty)).length →
      (assembledChapters items).getD
          ((if truthy (resolvedCover items) then 1 else 0) + i) [] =
        ((docTexts items).filter (fun t => !t.isEmpty)).getD i []) ∧
    collectChapters c8Items = ["a".toList, "b".toList] := by
  refine ⟨collectChapters_eq_filter items, ?_, ?_, by decide⟩
  · unfold assembledChapters
    by_cases hc : truthy (resolvedCover items) = true
    · rw [if_pos hc, if_pos hc, List.length_cons, collectChapters_eq_filter items]
      omega
    · rw [if_neg hc, if_neg hc, collectChapters_eq_filter items]
      omega
  · intro i hi
    unfold assembledChapters
    by_cases hc : truthy (resolvedCover items) = true
    · rw [if_pos hc, if_pos hc, show 1 + i = i + 1 by omega, List.getD_cons_succ,
        collectChapters_eq_filter items]
    · rw [if_neg hc, if_neg hc, show 0 + i = i by omega, collectChapters_eq_filter items]

/-- Witness for C8 on the two-empty-between-two-non-empty scenario. -/
theorem C8_witness :
    (assembledChapters c8Items).getD 0 [] = "a".toList ∧
    (assembledChapters c8Items).getD 1 [] = "b".toList ∧
    (assembledChapters c8Items).length = 2 := by
  have h := C8_dense_indexing c8Items
  have h0 := h.2.2.1 0 (by decide)
  have h1 := h.2.2.1 1 (by decide)
  have hs : (if truthy (resolvedCover c8Items) then 1 else 0) = 0 := by decide
  rw [hs, Nat.zero_add] at h0 h1
  exact ⟨by rw [h0]; decide, by rw [h1]; decide, by rw [h.2.1, hs, Nat.zero_add]; decide⟩



/-- `load_chapter` with no chapters loaded is a no-op for any index. -/
theorem load_chapter_empty (st : ReaderState) (i : Int) (h : st.chapters = []) :
    load_chapter st i = (st, Option.none) := by
  unfold load_chapter
  by_cases hs : st.suppress_load
  · rw [if_pos hs]
  · rw [if_neg hs, if_pos (by rw [h]; simp only [List.length_nil]; omega)]

/-- `display_page` with no pages is a no-op. -/
theorem display_page_nil (st : ReaderState) (h : st.pages = []) :
    display_page st = (st, Option.none) := by
  unfold display_page
  rw [if_neg (by simp [h])]

/-- Running `display_page` on a valid page with the store available:
the page is rendered and the position persisted. -/
theorem display_page_ok (st : ReaderState) (bp : String) (txt : List Char)
    (hbook : st.current_book = some bp)
    (hne : st.pages ≠ [])
    (h0 : 0 ≤ st.current_page) (h1 : st.current_page < (st.pages.length : Int))
    (htxt : st.pages.get? st.current_page.toNat = some txt)
    (hav : st.db.available = true) :
    display_page st =
      ({ st with
          displayed := Display.page txt (st.current_page + 1) st.pages.length,
          db := ⟨upsertRows st.db.rows bp st.current_chapter st.current_page, true⟩ },
        Option.none) := by
  unfold display_page pyGet
  rw [if_pos hne, if_pos (And.intro h0 h1), htxt]
  simp only [hbook]
  unfold save_progress
  simp [hav]

/-- Running `display_page` on a valid page with the store gone: the
page is rendered, then the `put` raises. -/
theorem display_page_fail (st : ReaderState) (bp : String) (txt : List Char)
    (hbook : st.current_book = some bp)
    (hne : st.pages ≠ [])
    (h0 : 0 ≤ st.current_page) (h1 : st.current_page < (st.pages.length : Int))
    (htxt : st.pages.get? st.current_page.toNat = some txt)
    (hav : st.db.available = false) :
    display_page st =
      ({ st with
          displayed := Display.page txt (st.current_page + 1) st.pages.length },
        some Err.persistence) := by
  unfold display_page pyGet
  rw [if_pos hne, if_pos (And.intro h0 h1), htxt]
  simp only [hbook]
  unfold save_progress
  simp [hav]

/-- C1 counterexample: with the storage layer unreachable, turning
the page raises the persistence error to the caller instead of
recovering it locally. -/
theorem C1_counterexample : (next_page c1State).2 = some Err.persistence := by decide

/-- C1 as amended: neither `save_progress` nor `load_progress`
catches anything, so on an unavailable store a navigation operation
raises `PersistenceError` to its caller; `gotoChapter` fails before
mutating anything, while `nextPage` keeps its already-advanced
in-memory page (and updated display) when the trailing `put` fails. -/
theorem C1_persistence_error_raised (st : ReaderState) (bp : String) (i : Int)
    (hav : st.db.available = false)
    (hbook : st.current_book = some bp) :
    (¬st.suppress_load = true → 0 ≤ i → i < (st.chapters.length : Int) →
      load_chapter st i = (st, some Err.persistence)) ∧
    (st.pages ≠ [] → 0 ≤ st.current_page →
      st.current_page < (st.pages.length : Int) - 1 →
      (next_page st).2 = some Err.persistence ∧
      (next_page st).1.current_page = st.current_page + 1 ∧
      (next_page st).1.current_chapter = st.current_chapter ∧
      (next_page st).1.pages = st.pages ∧
      (next_page st).1.chapters = st.chapters ∧
      (next_page st).1.db = st.db) := by
  constructor
  · intro hsup h0 h1
    unfold load_chapter
    rw [if_neg hsup, if_neg (by omega : ¬(i < 0 ∨ (st.chapters.length : Int) ≤ i)), hbook]
    unfold save_progress
    rw [hav]
    rfl
  · intro hne h0 h1
    have hn : (st.current_page + 1).toNat < st.pages.length := by omega
    cases hg : st.pages.get? (st.current_page + 1).toNat with
    | none => exact absurd (List.get?_eq_none.mp hg) (by omega)
    | some txt =>
      unfold next_page
      rw [if_pos ⟨hne, h1⟩]
      rw [display_page_fail { st with current_page := st.current_page + 1 } bp txt hbook hne
        (by show (0 : Int) ≤ st.current_page + 1; omega)
        (by show st.current_page + 1 < (st.pages.length : Int); omega) hg hav]
      exact ⟨rfl, rfl, rfl, rfl, rfl, rfl⟩

/-- Witness for C1 on the unreachable-store fixture. -/
theorem C1_witness :
    load_chapter c1State 0 = (c1State, some Err.persistence) ∧
    (next_page c1State).2 = some Err.persistence ∧
    (next_page c1State).1.current_page = c1State.current_page + 1 ∧
    (next_page c1State).1.pages = c1State.pages := by
  have h := C1_persistence_error_raised c1State "b" 0 (by decide) (by decide)
  have hb := h.2 (by decide) (by decide) (by decide)
  exact ⟨h.1 (by decide) (by decide) (by decide), hb.1, hb.2.1, hb.2.2.2.1⟩

/-- C3: opening a book whose stored position is the cover yields the
cover chapter at index 0, state `CoverDisplayed`, `pageCount = 0` —
but a page index of `-1`, not 0: `load_epub` re-clamps with
`min(page, len(self.pages) - 1)` after the cover branch emptied
`self.pages`, contradicting the `current_page = 0` the cover branch
itself just set. -/
theorem C3_cover_page_index_bug :
    (load_epub c3State "b" (Except.ok c3Book)).1.chapters.getD 0 [] = coverSentinel ∧
    (load_epub c3State "b" (Except.ok c3Book)).1.current_chapter = 0 ∧
    (load_epub c3State "b" (Except.ok c3Book)).1.displayed = Display.cover ∧
    (load_epub c3State "b" (Except.ok c3Book)).1.pages = [] ∧
    (load_epub c3State "b" (Except.ok c3Book)).1.current_page = -1 ∧
    (load_epub c3State "b" (Except.ok c3Book)).2 = Option.none := by decide

/-- C4 counterexample: a book with only empty sections and no cover
opens without any error and leaves an empty chapter list (the spec's
`NoReadableContent` does not exist in the code), and a failing
archive read has already overwritten `current_book`, so the session
is not left unchanged. -/
theorem C4_counterexample :
    (load_epub c4State "b" (Except.ok c4Book)).2 = Option.none ∧
    (load_epub c4State "b" (Except.ok c4Book)).1.chapters = [] ∧
    c4State.current_book = Option.none ∧
    (load_epub c4State "x" (Except.error ())).1.current_book = some "x" := by decide

/-- C4 as amended: an unreadable archive surfaces `containerRead` to
the caller, but with `current_book` already reassigned to the new
path (the rest of the state unchanged); a book with zero non-empty
sections and no cover raises nothing — `open` completes, leaving an
empty chapter list. -/
theorem C4_open_failure_behaviour (st : ReaderState) (path : String) (b : ParsedBook)
    (hav : st.db.available = true) (hpages : st.pages = [])
    (hdocs : collectChapters b.items = [])
    (hcov : truthy (resolvedCover b.items) = false) :
    load_epub st path (Except.error ()) =
      ({ st with current_book := some (os_path_abspath path) }, some Err.containerRead) ∧
    (load_epub st path (Except.ok b)).2 = Option.none ∧
    (load_epub st path (Except.ok b)).1.chapters = [] := by
  have hchap : assembledChapters b.items = [] := by
    unfold assembledChapters
    rw [if_neg (by rw [hcov]; exact Bool.false_ne_true), hdocs]
  have hload : load_progress st.db (some (os_path_abspath path)) =
      Except.ok (match queryRow st.db.rows (some (os_path_abspath path)) with
        | some cp => cp
        | Option.none => (0, 0)) := by
    unfold load_progress
    rw [hav]
    rfl
  refine ⟨rfl, ?_, ?_⟩ <;>
  · unfold load_epub
    simp only [hload, hchap, hpages, load_chapter_empty, display_page_nil]



theorem collectChapters_ne_nil :
    ∀ items : List EpubItem, ∀ t ∈ collectChapters items, t ≠ [] := by
  intro items
  induction items with
  | nil => intro t ht; exact absurd ht (List.not_mem_nil t)
  | cons it rest ih =>
    cases it with
    | coverItem c => exact ih
    | image nm c => exact ih
    | other => exact ih
    | document u =>
      intro t ht
      unfold collectChapters at ht
      by_cases hu : u ≠ []
      · rw [if_pos hu] at ht
        rcases List.mem_cons.mp ht with h | h
        · rw [h]; exact hu
        · exact ih t h
      · rw [if_neg hu] at ht
        exact ih t ht

theorem assembled_all_ne_nil (items : List EpubItem) :
    ∀ t ∈ assembledChapters items, t ≠ [] := by
  intro t ht
  unfold assembledChapters at ht
  by_cases hc : truthy (resolvedCover items) = true
  · rw [if_pos hc] at ht
    rcases List.mem_cons.mp ht with h | h
    · rw [h]; decide
    · exact collectChapters_ne_nil items t h
  · rw [if_neg hc] at ht
    exact collectChapters_ne_nil items t ht

theorem getD_ne_nil {l : List (List Char)} (hall : ∀ t ∈ l, t ≠ []) {n : Nat}
    (hn : n < l.length) : l.getD n [] ≠ [] := by
  rw [List.getD_eq_getElem _ _ hn]
  exact hall _ (List.getElem_mem hn)

theorem assembled_getD_ne_nil (items : List EpubItem) (n : Nat)
    (hn : n < (assembledChapters items).length) :
    (assembledChapters items).getD n [] ≠ [] :=
  getD_ne_nil (assembled_all_ne_nil items) hn

theorem load_chapter_run (st : ReaderState) (bp : String) (i : Int) (txt : List Char)
    (hsup : st.suppress_load = false)
    (hbook : st.current_book = some bp)
    (hav : st.db.available = true)
    (h0 : 0 ≤ i) (h1 : i < (st.chapters.length : Int))
    (hnc : ¬(st.chapters.getD i.toNat [] = coverSentinel ∧ truthy st.cover_data = true))
    (htext : st.chapters.getD i.toNat [] ≠ [])
    (htxt : (paginate_chapter (st.chapters.getD i.toNat [])).get? 0 = some txt) :
    load_chapter st i =
      ({ st with
          current_chapter := i,
          pages := paginate_chapter (st.chapters.getD i.toNat []),
          current_page := 0,
          displayed := Display.page txt 1 (paginate_chapter (st.chapters.getD i.toNat [])).length,
          db := ⟨upsertRows (upsertRows st.db.rows bp i 0) bp i 0, true⟩ },
        Option.none) := by
  have hpagne : paginate_chapter (st.chapters.getD i.toNat []) ≠ [] :=
    fun h => htext ((paginate_eq_nil_iff _).mp h)
  have hlen1 : 1 ≤ (paginate_chapter (st.chapters.getD i.toNat [])).length :=
    List.length_pos.mpr hpagne
  have hload2 : load_progress ⟨upsertRows st.db.rows bp i 0, true⟩ (some bp) =
      Except.ok (i, 0) := by
    show Except.ok (match queryRow (upsertRows st.db.rows bp i 0) (some bp) with
      | some cp => cp
      | Option.none => (0, 0)) = Except.ok (i, 0)
    rw [queryRow_upsert_self]
  unfold load_chapter
  rw [if_neg (by simp [hsup]), if_neg (by omega : ¬(i < 0 ∨ (st.chapters.length : Int) ≤ i))]
  simp only [hbook]
  unfold save_progress
  simp only [hav, if_true]
  unfold load_chapter_body
  simp only []
  rw [if_neg hnc, hload2]
  simp only []
  have hmin : min ((0 : Int))
      (((paginate_chapter (st.chapters.getD i.toNat [])).length : Int) - 1) = 0 :=
    min_eq_left (by omega)
  rw [hmin]
  rw [display_page_ok _ bp txt rfl hpagne (Int.le_refl 0)
    (by show (0 : Int) < ((paginate_chapter (st.chapters.getD i.toNat [])).length : Int)
        omega)
    (by show (paginate_chapter (st.chapters.getD i.toNat [])).get? (0 : Int).toNat = some txt
        exact htxt)
    rfl]
  rfl


/-- C2 as amended: `open` clamps only the restored page index, and
only when the restored chapter index is already in range and not the
cover: then the page becomes `min(p, pageCount - 1) ∈ [0, pageCount)`
(for `p ≥ 0`) and the chapter is activated as stored.  The chapter
index itself is never clamped (see the counterexample). -/
theorem C2_restore_clamp (st : ReaderState) (path : String) (b : ParsedBook) (c p : Int)
    (hav : st.db.available = true)
    (hsup : st.suppress_load = false)
    (hrec : queryRow st.db.rows (some (os_path_abspath path)) = some (c, p))
    (hc0 : 0 ≤ c) (hc1 : c < ((assembledChapters b.items).length : Int))
    (hnc : ¬((assembledChapters b.items).getD c.toNat [] = coverSentinel ∧
      truthy (resolvedCover b.items) = true))
    (hp : 0 ≤ p) :
    (load_epub st path (Except.ok b)).2 = Option.none ∧
    (load_epub st path (Except.ok b)).1.current_chapter = c ∧
    (load_epub st path (Except.ok b)).1.pages =
      paginate_chapter ((assembledChapters b.items).getD c.toNat []) ∧
    0 ≤ (load_epub st path (Except.ok b)).1.current_page ∧
    (load_epub st path (Except.ok b)).1.current_page <
      ((load_epub st path (Except.ok b)).1.pages.length : Int) := by
  have hcn : c.toNat < (assembledChapters b.items).length := by omega
  have htext : (assembledChapters b.items).getD c.toNat [] ≠ [] :=
    assembled_getD_ne_nil b.items c.toNat hcn
  have hpagne : paginate_chapter ((assembledChapters b.items).getD c.toNat []) ≠ [] :=
    fun h => htext ((paginate_eq_nil_iff _).mp h)
  have hlen1 : 1 ≤ (paginate_chapter ((assembledChapters b.items).getD c.toNat [])).length :=
    List.length_pos.mpr hpagne
  have hload1 : load_progress st.db (some (os_path_abspath path)) = Except.ok (c, p) := by
    unfold load_progress
    rw [hav, hrec]
    rfl
  cases hg : (paginate_chapter ((assembledChapters b.items).getD c.toNat [])).get? 0 with
  | none => exact absurd (List.get?_eq_none.mp hg) (by omega)
  | some txt =>
  have hrun := load_chapter_run
    ⟨assembledChapters b.items, st.pages, c, p, resolvedCover b.items,
      some (os_path_abspath path), st.suppress_load, st.displayed, st.db⟩
    (os_path_abspath path) c txt hsup rfl hav hc0 hc1 hnc htext hg
  unfold load_epub
  simp only []
  rw [hload1]
  simp only []
  rw [hrun]
  simp only []
  have hmin0 : 0 ≤ min p
      (((paginate_chapter ((assembledChapters b.items).getD c.toNat [])).length : Int) - 1) :=
    le_min hp (by omega)
  have hmin1 : min p
      (((paginate_chapter ((assembledChapters b.items).getD c.toNat [])).length : Int) - 1) ≤
      ((paginate_chapter ((assembledChapters b.items).getD c.toNat [])).length : Int) - 1 :=
    min_le_right _ _
  have hkn : (min p (((paginate_chapter
      ((assembledChapters b.items).getD c.toNat [])).length : Int) - 1)).toNat <
      (paginate_chapter ((assembledChapters b.items).getD c.toNat [])).length := by omega
  cases hg2 : (paginate_chapter ((assembledChapters b.items).getD c.toNat [])).get?
      (min p (((paginate_chapter
        ((assembledChapters b.items).getD c.toNat [])).length : Int) - 1)).toNat with
  | none => exact absurd (List.get?_eq_none.mp hg2) (by omega)
  | some txt2 =>
  have hdisp := display_page_ok
    ⟨assembledChapters b.items,
      paginate_chapter ((assembledChapters b.items).getD c.toNat []), c,
      min p (((paginate_chapter
        ((assembledChapters b.items).getD c.toNat [])).length : Int) - 1),
      resolvedCover b.items, some (os_path_abspath path), st.suppress_load,
      Display.page txt 1 (paginate_chapter ((assembledChapters b.items).getD c.toNat [])).length,
      ⟨upsertRows (upsertRows st.db.rows (os_path_abspath path) c 0) (os_path_abspath path) c 0,
        true⟩⟩
    (os_path_abspath path) txt2 rfl hpagne hmin0
    (by show min p (((paginate_chapter
          ((assembledChapters b.items).getD c.toNat [])).length : Int) - 1) <
        ((paginate_chapter ((assembledChapters b.items).getD c.toNat [])).length : Int)
        omega) hg2 rfl
  rw [hdisp]
  refine ⟨rfl, rfl, rfl, hmin0, ?_⟩
  show min p (((paginate_chapter
      ((assembledChapters b.items).getD c.toNat [])).length : Int) - 1) <
    ((paginate_chapter ((assembledChapters b.items).getD c.toNat [])).length : Int)
  omega


/-- C2 counterexample: a stored chapter index of 5 for a one-chapter
book survives `open` unclamped — `load_chapter` silently refuses the
out-of-range index after `current_chapter` was already set to it, so
the session ends with `current_chapter = 5 ∉ [0, 1)`. -/
theorem C2_counterexample :
    (load_epub c2State "b" (Except.ok c2Book)).1.current_chapter = 5 ∧
    (load_epub c2State "b" (Except.ok c2Book)).1.chapters.length = 1 ∧
    (load_epub c2State "b" (Except.ok c2Book)).2 = Option.none := by decide

/-- Witness for C2 (amended): a stored page past the end of the only
page is clamped into range on restore. -/
theorem C2_witness :
    (load_epub c2wState "b" (Except.ok c2Book)).2 = Option.none ∧
    (load_epub c2wState "b" (Except.ok c2Book)).1.current_chapter = 0 ∧
    0 ≤ (load_epub c2wState "b" (Except.ok c2Book)).1.current_page ∧
    (load_epub c2wState "b" (Except.ok c2Book)).1.current_page <
      ((load_epub c2wState "b" (Except.ok c2Book)).1.pages.length : Int) := by
  have h := C2_restore_clamp c2wState "b" c2Book 0 4 (by decide) (by decide) (by decide)
    (by decide) (by decide) (by decide) (by decide)
  exact ⟨h.1, h.2.1, h.2.2.2.1, h.2.2.2.2⟩

/-- Witness for C4 (amended) on the empty-book fixture. -/
theorem C4_witness :
    (load_epub c4State "b" (Except.ok c4Book)).2 = Option.none ∧
    (load_epub c4State "b" (Except.ok c4Book)).1.chapters = [] := by
  have h := C4_open_failure_behaviour c4State "b" c4Book (by decide) (by decide)
    (by decide) (by decide)
  exact ⟨h.2.1, h.2.2⟩

end EpubReader
